import Mathlib

/-
  Shallow embedding of the order-matching core of the frp_trading_system
  repository (src/cpp/src/execution_engine.cpp and the OrderBook /
  ExecutionEngine declarations in the C++ header).

  Modelling conventions:
  * C++ `double` prices and P&L values are modelled as exact rationals (ℚ).
    All concrete inputs used below are dyadic and all intermediate values are
    exactly representable in binary floating point, so the computed values
    coincide with the double computations of the source.
  * C++ `int` quantities and the position counter are modelled as ℤ.
  * `std::priority_queue` is modelled as the libstdc++ binary heap on a
    vector: `push` is push_back followed by the percolate-up of __push_heap;
    `pop` is the __pop_heap / __adjust_heap hole-percolation followed by
    pop_back.  The element order among equal-priority elements is exactly the
    one this algorithm produces.
  * Mutexes and threads are not modelled: every claim below is about the
    sequential functional behaviour of the operations.
  * The random 36-character order id of `generate_order_id` is modelled by a
    deterministic injective stand-in; only distinctness of ids is ever used.
  * Recursion uses explicit structural fuel so that every definition is
    executable by the kernel; fuel bounds are proved sufficient where a claim
    depends on the loop running to completion.
-/

namespace trading

/-- Order struct from the C++ header: {order_id, symbol, price, quantity, is_buy}. -/
structure Order where
  order_id : String
  symbol : String
  price : ℚ
  quantity : ℤ
  is_buy : Bool
deriving DecidableEq, Inhabited

/-- OrderBook::OrderCompare from the C++ header:
`a.is_buy ? (a.price < b.price) : (a.price > b.price)`. -/
def OrderCompare (a b : Order) : Bool :=
  if a.is_buy then decide (a.price < b.price) else decide (a.price > b.price)

/-- Parent index in the binary heap layout. -/
def parentIdx (i : ℕ) : ℕ := (i - 1) / 2

/-- libstdc++ __push_heap: percolate `value` from `holeIndex` up toward
`topIndex`, moving smaller parents down; finally store `value` in the hole.
Fuel-structural; fuel ≥ holeIndex suffices (the hole index strictly
decreases). -/
def pushHeapUp (cmp : Order → Order → Bool) :
    ℕ → List Order → ℕ → ℕ → Order → List Order
  | 0, v, holeIndex, _, value => v.set holeIndex value
  | fuel + 1, v, holeIndex, topIndex, value =>
    if topIndex < holeIndex ∧ cmp (v.getD (parentIdx holeIndex) default) value = true then
      pushHeapUp cmp fuel (v.set holeIndex (v.getD (parentIdx holeIndex) default))
        (parentIdx holeIndex) topIndex value
    else
      v.set holeIndex value

/-- std::priority_queue::push: push_back then __push_heap from the last slot. -/
def heapPush (cmp : Order → Order → Bool) (v : List Order) (x : Order) : List Order :=
  pushHeapUp cmp (v.length + 1) (v ++ [x]) v.length 0 x

/-- The while loop of libstdc++ __adjust_heap: percolate the hole down along
the larger child as long as the hole has two children; returns the updated
vector, the final hole index and the final secondChild value.  The C++ signed
arithmetic `(len - 1) / 2` agrees with ℕ truncated subtraction for every
`len ≥ 0`. -/
def adjustHeapLoop (cmp : Order → Order → Bool) :
    ℕ → ℕ → List Order → ℕ → ℕ → List Order × ℕ × ℕ
  | 0, _, v, holeIndex, secondChild => (v, holeIndex, secondChild)
  | fuel + 1, len, v, holeIndex, secondChild =>
    if secondChild < (len - 1) / 2 then
      let sc0 := 2 * (secondChild + 1)
      let sc := if cmp (v.getD sc0 default) (v.getD (sc0 - 1) default) then sc0 - 1 else sc0
      adjustHeapLoop cmp fuel len (v.set holeIndex (v.getD sc default)) sc sc
    else
      (v, holeIndex, secondChild)

/-- libstdc++ __adjust_heap: hole percolation (loop above), the trailing
single-child step for even `len` (the `2 ≤ len` conjunct renders the C++
signed comparison `secondChild == (len - 2) / 2`, which is false for
`len = 0`, faithfully in ℕ), then __push_heap of `value` from the final
hole. -/
def adjustHeap (cmp : Order → Order → Bool) (len : ℕ) (v : List Order)
    (holeIndex : ℕ) (value : Order) : List Order :=
  let r := adjustHeapLoop cmp len len v holeIndex holeIndex
  let v1 := r.1
  let hole1 := r.2.1
  let sc1 := r.2.2
  if len % 2 = 0 ∧ 2 ≤ len ∧ sc1 = (len - 2) / 2 then
    let sc := 2 * (sc1 + 1)
    pushHeapUp cmp len (v1.set hole1 (v1.getD (sc - 1) default)) (sc - 1) holeIndex value
  else
    pushHeapUp cmp len v1 hole1 holeIndex value

/-- std::priority_queue::pop: for size > 1, __pop_heap moves the last element
into the root region via __adjust_heap over the first `size - 1` slots, then
pop_back removes the ejected top; a one-element (or empty) heap just drops
everything. -/
def heapPop (cmp : Order → Order → Bool) (v : List Order) : List Order :=
  if v.length ≤ 1 then [] else
    let n := v.length
    let value := v.getD (n - 1) default
    let v1 := v.set (n - 1) (v.getD 0 default)
    (adjustHeap cmp (n - 1) v1 0 value).take (n - 1)

/-- std::priority_queue::top: the first vector slot. -/
def heapTop (v : List Order) : Order := v.getD 0 default

/-- OrderBook state: resting heaps plus the symbol accounting fields, exactly
the private data of the C++ class. -/
structure OrderBook where
  symbol : String
  buy_orders : List Order
  sell_orders : List Order
  position_ : ℤ
  average_price_ : ℚ
  realized_pnl_ : ℚ
deriving DecidableEq, Inhabited

/-- OrderBook constructor: empty heaps, position 0, average price 0,
realized P&L 0. -/
def OrderBook.init (s : String) : OrderBook :=
  { symbol := s, buy_orders := [], sell_orders := [], position_ := 0,
    average_price_ := 0, realized_pnl_ := 0 }

/-- Modelled from the spec: the source's Trade struct is declared but never
constructed anywhere; the spec's Trade event carries
{symbol, price, quantity, buy_order_id, sell_order_id, timestamp}.  The
wall-clock timestamp is not embeddable and is omitted.  Values of this type
are the ghost observation of the match events the loop executes. -/
structure TradeEvent where
  symbol : String
  price : ℚ
  quantity : ℤ
  buy_order_id : String
  sell_order_id : String
deriving DecidableEq

/-- std::min on int: `b < a ? b : a` (kernel-reducible; equal to `min`,
see `intMin_eq_min`). -/
def intMin (a b : ℤ) : ℤ := if b < a then b else a

/-- Loop guard of OrderBook::match_orders:
`!buy_orders.empty() && !sell_orders.empty() && buy.price >= sell.price`. -/
def crossing (b : OrderBook) : Bool :=
  !b.buy_orders.isEmpty && !b.sell_orders.isEmpty &&
    decide ((heapTop b.buy_orders).price ≥ (heapTop b.sell_orders).price)

/-- One iteration of the body of OrderBook::match_orders (source lines
80–103): matched quantity is the min of the two top remaining quantities,
matched price the midpoint of the two resting prices; each top order is
popped when fully filled, else its quantity is decremented in place; then
`position_ += matched_quantity` unconditionally, `average_price_` is
recomputed from the ALREADY UPDATED position, and `realized_pnl_` uses the
ALREADY UPDATED average price — exactly as the source does. -/
def matchStep (b : OrderBook) : OrderBook × TradeEvent :=
  let buy := heapTop b.buy_orders
  let sell := heapTop b.sell_orders
  let matched_quantity := intMin buy.quantity sell.quantity
  let matched_price := (buy.price + sell.price) / 2
  let buys' := if buy.quantity = matched_quantity then heapPop OrderCompare b.buy_orders
               else b.buy_orders.set 0 { buy with quantity := buy.quantity - matched_quantity }
  let sells' := if sell.quantity = matched_quantity then heapPop OrderCompare b.sell_orders
                else b.sell_orders.set 0 { sell with quantity := sell.quantity - matched_quantity }
  let position' := b.position_ + matched_quantity
  let old_value := b.average_price_ * (position' : ℚ)
  let new_value := matched_price * (matched_quantity : ℚ)
  let average' := (old_value + new_value) / ((position' + matched_quantity : ℤ) : ℚ)
  let realized' := b.realized_pnl_ + (matched_price - average') * (matched_quantity : ℚ)
  ({ b with buy_orders := buys', sell_orders := sells', position_ := position',
            average_price_ := average', realized_pnl_ := realized' },
   { symbol := b.symbol, price := matched_price, quantity := matched_quantity,
     buy_order_id := buy.order_id, sell_order_id := sell.order_id })

/-- The matching while-loop with explicit fuel, accumulating the ghost list of
match events. -/
def matchLoop : ℕ → OrderBook → List TradeEvent → OrderBook × List TradeEvent
  | 0, b, evs => (b, evs)
  | fuel + 1, b, evs =>
    if crossing b then
      let r := matchStep b
      matchLoop fuel r.1 (evs ++ [r.2])
    else
      (b, evs)

/-- OrderBook::match_orders.  Every iteration pops at least one order off one
of the heaps (the min of the two quantities equals at least one of them), so
the total number of resting orders is sufficient fuel; this is proved below
(`matchLoop_not_crossing`). -/
def OrderBook.match_orders (b : OrderBook) : OrderBook × List TradeEvent :=
  matchLoop (b.buy_orders.length + b.sell_orders.length) b []

/-- OrderBook::add_order: push the order onto its side's heap (no validation
of any kind is performed), then run match_orders. -/
def OrderBook.add_order (b : OrderBook) (o : Order) : OrderBook × List TradeEvent :=
  let b' := if o.is_buy then { b with buy_orders := heapPush OrderCompare b.buy_orders o }
            else { b with sell_orders := heapPush OrderCompare b.sell_orders o }
  OrderBook.match_orders b'

/-- OrderBook::get_best_bid: `buy_orders.empty() ? 0.0 : buy_orders.top().price`. -/
def OrderBook.get_best_bid (b : OrderBook) : ℚ :=
  if b.buy_orders.isEmpty then 0 else (heapTop b.buy_orders).price

/-- OrderBook::get_best_ask: `sell_orders.empty() ? 0.0 : sell_orders.top().price`. -/
def OrderBook.get_best_ask (b : OrderBook) : ℚ :=
  if b.sell_orders.isEmpty then 0 else (heapTop b.sell_orders).price

/-- OrderBook::get_position. -/
def OrderBook.get_position (b : OrderBook) : ℤ := b.position_

/-- OrderBook::get_average_price. -/
def OrderBook.get_average_price (b : OrderBook) : ℚ := b.average_price_

/-- OrderBook::get_unrealized_pnl:
`position_ * ((get_best_bid() + get_best_ask()) / 2 - average_price_)`.
Only the functional content is modelled; the source's re-acquisition of the
already-held mutex inside this call is a concurrency defect outside the
embedding. -/
def OrderBook.get_unrealized_pnl (b : OrderBook) : ℚ :=
  let mid_price := (OrderBook.get_best_bid b + OrderBook.get_best_ask b) / 2
  (b.position_ : ℚ) * (mid_price - b.average_price_)

/-- OrderBook::get_realized_pnl. -/
def OrderBook.get_realized_pnl (b : OrderBook) : ℚ := b.realized_pnl_

/-- Process a list of orders through add_order starting from an empty book. -/
def run_orders (s : String) (os : List Order) : OrderBook :=
  os.foldl (fun b o => (OrderBook.add_order b o).1) (OrderBook.init s)

/-- Process a list of orders through add_order, also accumulating every match
event produced along the way. -/
def run_orders_ev (s : String) (os : List Order) : OrderBook × List TradeEvent :=
  os.foldl (fun p o =>
    let r := OrderBook.add_order p.1 o
    (r.1, p.2 ++ r.2)) (OrderBook.init s, [])

/-- Deterministic injective stand-in for the source's generate_order_id (36
random hex characters); only distinctness of ids matters to any claim. -/
def generate_order_id (n : ℕ) : String :=
  "order-" ++ toString n

/-- std::unordered_map::find over the symbol → OrderBook map. -/
def findBook : List (String × OrderBook) → String → Option OrderBook
  | [], _ => none
  | (k, b) :: rest, s => if k = s then some b else findBook rest s

/-- std::unordered_map::try_emplace: insert a fresh book only when absent. -/
def try_emplace (books : List (String × OrderBook)) (s : String) :
    List (String × OrderBook) :=
  match findBook books s with
  | some _ => books
  | none => books ++ [(s, OrderBook.init s)]

/-- Write back the updated book for a symbol. -/
def update_book (books : List (String × OrderBook)) (s : String) (b' : OrderBook) :
    List (String × OrderBook) :=
  books.map (fun p => if p.1 = s then (s, b') else p)

/-- Trade-callback registry: `trade_callbacks[symbol].push_back(cb)`;
callbacks are identified by ℕ handles. -/
def addCallback : List (String × List ℕ) → String → ℕ → List (String × List ℕ)
  | [], s, h => [(s, [h])]
  | (k, hs) :: rest, s, h =>
    if k = s then (k, hs ++ [h]) :: rest else (k, hs) :: addCallback rest s h

/-- ExecutionEngine state: the symbol → OrderBook map, the trade-subscriber
registry, the ghost list of every Trade ever delivered to a callback (no
source code path appends to it), the ghost list of all match events, and the
id-generator state. -/
structure ExecutionEngine where
  order_books : List (String × OrderBook)
  trade_callbacks : List (String × List ℕ)
  trades_delivered : List (ℕ × TradeEvent)
  all_matches : List TradeEvent
  next_id : ℕ

/-- ExecutionEngine default constructor. -/
def ExecutionEngine.init : ExecutionEngine :=
  { order_books := [], trade_callbacks := [], trades_delivered := [],
    all_matches := [], next_id := 0 }

/-- ExecutionEngine::submit_order: try_emplace the book, overwrite the
order's id with a generated one, delegate to add_order, return the id.  The
source performs no validation and never touches the trade-callback registry
or delivers any Trade. -/
def ExecutionEngine.submit_order (e : ExecutionEngine) (o : Order) :
    ExecutionEngine × String :=
  let books := try_emplace e.order_books o.symbol
  let oid := generate_order_id e.next_id
  let o' := { o with order_id := oid }
  let b := (findBook books o.symbol).getD (OrderBook.init o.symbol)
  let r := OrderBook.add_order b o'
  ({ e with order_books := update_book books o.symbol r.1,
            all_matches := e.all_matches ++ r.2,
            next_id := e.next_id + 1 }, oid)

/-- ExecutionEngine::subscribe_trades. -/
def ExecutionEngine.subscribe_trades (e : ExecutionEngine) (s : String) (h : ℕ) :
    ExecutionEngine :=
  { e with trade_callbacks := addCallback e.trade_callbacks s h }

/-- ExecutionEngine::get_position: 0 for an unknown symbol. -/
def ExecutionEngine.get_position (e : ExecutionEngine) (s : String) : ℤ :=
  match findBook e.order_books s with
  | some b => OrderBook.get_position b
  | none => 0

/-- ExecutionEngine::get_average_price: 0.0 for an unknown symbol. -/
def ExecutionEngine.get_average_price (e : ExecutionEngine) (s : String) : ℚ :=
  match findBook e.order_books s with
  | some b => OrderBook.get_average_price b
  | none => 0

/-- ExecutionEngine::get_unrealized_pnl: 0.0 for an unknown symbol. -/
def ExecutionEngine.get_unrealized_pnl (e : ExecutionEngine) (s : String) : ℚ :=
  match findBook e.order_books s with
  | some b => OrderBook.get_unrealized_pnl b
  | none => 0

/-- ExecutionEngine::get_realized_pnl: 0.0 for an unknown symbol. -/
def ExecutionEngine.get_realized_pnl (e : ExecutionEngine) (s : String) : ℚ :=
  match findBook e.order_books s with
  | some b => OrderBook.get_realized_pnl b
  | none => 0

/-- Process a list of orders through ExecutionEngine::submit_order. -/
def run_engine (os : List Order) : ExecutionEngine :=
  os.foldl (fun e o => (ExecutionEngine.submit_order e o).1) ExecutionEngine.init

/-- Spec formula for the average-cost update on a magnitude-increasing fill:
`(average_cost * |position_before| + matched_price * matched_quantity) /
(|position_before| + matched_quantity)`, stated from the pre-trade position
and the pre-trade average cost. -/
def spec_avg_increase (position_before : ℤ) (average_cost matched_price : ℚ)
    (matched_quantity : ℤ) : ℚ :=
  (average_cost * ((position_before.natAbs : ℤ) : ℚ) + matched_price * (matched_quantity : ℚ)) /
    (((position_before.natAbs : ℤ) : ℚ) + (matched_quantity : ℚ))

/-- Spec formula for the realized-P&L update on a magnitude-decreasing fill:
`realized_pnl + (matched_price − average_cost_before) * matched_quantity`
with the pre-trade average cost. -/
def spec_rpnl_decrease (realized_pnl average_cost_before matched_price : ℚ)
    (matched_quantity : ℤ) : ℚ :=
  realized_pnl + (matched_price - average_cost_before) * (matched_quantity : ℚ)

/-- The symbol used in the concrete scenarios. -/
def aapl : String := "AAPL"

/-- A symbol no scenario ever submits an order for. -/
def msft : String := "MSFT"

theorem intMin_eq_min (a b : ℤ) : intMin a b = min a b := by
  simp only [intMin, min_def]
  split <;> split <;> omega

theorem intMin_choice (a b : ℤ) : intMin a b = a ∨ intMin a b = b := by
  unfold intMin
  split
  · right; rfl
  · left; rfl

theorem pushHeapUp_length (cmp : Order → Order → Bool) :
    ∀ (fuel : ℕ) (v : List Order) (hole top : ℕ) (value : Order),
      (pushHeapUp cmp fuel v hole top value).length = v.length := by
  intro fuel
  induction fuel with
  | zero => intro v hole top value; simp [pushHeapUp]
  | succ n ih =>
    intro v hole top value
    simp only [pushHeapUp]
    split
    · rw [ih]; simp
    · simp

theorem adjustHeapLoop_length (cmp : Order → Order → Bool) :
    ∀ (fuel len : ℕ) (v : List Order) (hole sc : ℕ),
      (adjustHeapLoop cmp fuel len v hole sc).1.length = v.length := by
  intro fuel
  induction fuel with
  | zero => intro len v hole sc; simp [adjustHeapLoop]
  | succ n ih =>
    intro len v hole sc
    simp only [adjustHeapLoop]
    split
    · rw [ih]; simp
    · simp

theorem adjustHeap_length (cmp : Order → Order → Bool) (len : ℕ) (v : List Order)
    (hole : ℕ) (value : Order) :
    (adjustHeap cmp len v hole value).length = v.length := by
  simp only [adjustHeap]
  split
  · rw [pushHeapUp_length, List.length_set, adjustHeapLoop_length]
  · rw [pushHeapUp_length, adjustHeapLoop_length]

theorem heapPush_length (cmp : Order → Order → Bool) (v : List Order) (x : Order) :
    (heapPush cmp v x).length = v.length + 1 := by
  simp [heapPush, pushHeapUp_length]

theorem heapPop_length (cmp : Order → Order → Bool) (v : List Order) (h : v ≠ []) :
    (heapPop cmp v).length = v.length - 1 := by
  simp only [heapPop]
  split
  · rename_i hle
    have h0 : v.length ≠ 0 := by simpa using h
    simp only [List.length_nil]
    omega
  · rename_i hgt
    rw [List.length_take, adjustHeap_length, List.length_set]
    omega

theorem getD_mem (v : List Order) (i : ℕ) (d : Order) (h : i < v.length) :
    v.getD i d ∈ v := by
  rw [List.getD_eq_getElem v d h]
  exact List.getElem_mem h

theorem mem_set_self (v : List Order) (i : ℕ) (a : Order) (h : i < v.length) :
    a ∈ v.set i a := by
  have hlt : i < (v.set i a).length := by rw [List.length_set]; exact h
  have h2 := List.getElem_mem hlt
  rwa [List.getElem_set_self hlt] at h2

theorem pushHeapUp_mem (cmp : Order → Order → Bool) :
    ∀ (fuel : ℕ) (v : List Order) (hole top : ℕ) (value x : Order),
      hole < v.length → x ∈ pushHeapUp cmp fuel v hole top value → x ∈ v ∨ x = value := by
  intro fuel
  induction fuel with
  | zero =>
    intro v hole top value x _ hx
    simpa using List.mem_or_eq_of_mem_set hx
  | succ n ih =>
    intro v hole top value x hhole hx
    simp only [pushHeapUp] at hx
    split at hx
    · have hp : parentIdx hole < v.length := by
        have hle : parentIdx hole ≤ hole := by unfold parentIdx; omega
        omega
      have := ih (v.set hole (v.getD (parentIdx hole) default)) (parentIdx hole) top value x
        (by rw [List.length_set]; exact hp) hx
      rcases this with h1 | h2
      · rcases List.mem_or_eq_of_mem_set h1 with h3 | h4
        · exact Or.inl h3
        · exact Or.inl (h4 ▸ getD_mem v (parentIdx hole) default hp)
      · exact Or.inr h2
    · rcases List.mem_or_eq_of_mem_set hx with h1 | h2
      · exact Or.inl h1
      · exact Or.inr h2

theorem pushHeapUp_value_mem (cmp : Order → Order → Bool) :
    ∀ (fuel : ℕ) (v : List Order) (hole top : ℕ) (value : Order),
      hole < v.length → value ∈ pushHeapUp cmp fuel v hole top value := by
  intro fuel
  induction fuel with
  | zero =>
    intro v hole top value hhole
    exact mem_set_self v hole value hhole
  | succ n ih =>
    intro v hole top value hhole
    simp only [pushHeapUp]
    split
    · refine ih _ _ _ _ ?_
      rw [List.length_set]
      have hle : parentIdx hole ≤ hole := by unfold parentIdx; omega
      omega
    · exact mem_set_self v hole value hhole

theorem adjustHeapLoop_spec (cmp : Order → Order → Bool) :
    ∀ (fuel len : ℕ) (v : List Order) (hole sc : ℕ),
      hole < len → len ≤ v.length →
      ((adjustHeapLoop cmp fuel len v hole sc).2.1 < len ∧
       ∀ x, x ∈ (adjustHeapLoop cmp fuel len v hole sc).1 → x ∈ v) := by
  intro fuel
  induction fuel with
  | zero =>
    intro len v hole sc hhole hlen
    exact ⟨hhole, fun x hx => hx⟩
  | succ n ih =>
    intro len v hole sc hhole hlen
    simp only [adjustHeapLoop]
    split
    · rename_i hsc
      set sc0 := 2 * (sc + 1) with hsc0
      set sc' := if cmp (v.getD sc0 default) (v.getD (sc0 - 1) default) then sc0 - 1 else sc0 with hsc'
      have hb : sc' < len := by
        have h1 : sc + 1 ≤ (len - 1) / 2 := hsc
        have h2 : sc0 ≤ len - 1 := by omega
        have h3 : sc' ≤ sc0 := by rw [hsc']; split <;> omega
        omega
      have hlen' : len ≤ (v.set hole (v.getD sc' default)).length := by
        rw [List.length_set]; exact hlen
      obtain ⟨ha, hb2⟩ := ih len (v.set hole (v.getD sc' default)) sc' sc' hb hlen'
      refine ⟨ha, fun x hx => ?_⟩
      have := hb2 x hx
      rcases List.mem_or_eq_of_mem_set this with h3 | h4
      · exact h3
      · exact h4 ▸ getD_mem v sc' default (by omega)
    · exact ⟨hhole, fun x hx => hx⟩

theorem adjustHeap_mem (cmp : Order → Order → Bool) (len : ℕ) (v : List Order)
    (hole : ℕ) (value x : Order) (hhole : hole < len) (hlen : len ≤ v.length) :
    x ∈ adjustHeap cmp len v hole value → x ∈ v ∨ x = value := by
  intro hx
  simp only [adjustHeap] at hx
  obtain ⟨hh, hm⟩ := adjustHeapLoop_spec cmp len len v hole hole hhole hlen
  have hlen1 : (adjustHeapLoop cmp len len v hole hole).1.length = v.length :=
    adjustHeapLoop_length cmp len len v hole hole
  split at hx
  · rename_i hcond
    obtain ⟨h1, h2, h3⟩ := hcond
    have hidx : 2 * ((adjustHeapLoop cmp len len v hole hole).2.2 + 1) - 1 <
        (adjustHeapLoop cmp len len v hole hole).1.length := by omega
    have := pushHeapUp_mem cmp len _ _ hole value x
      (by rw [List.length_set]; exact hidx) hx
    rcases this with h4 | h5
    · rcases List.mem_or_eq_of_mem_set h4 with h6 | h7
      · exact Or.inl (hm x h6)
      · exact Or.inl (hm _ (h7 ▸ getD_mem _ _ default hidx))
    · exact Or.inr h5
  · have := pushHeapUp_mem cmp len _ _ hole value x (by omega) hx
    rcases this with h4 | h5
    · exact Or.inl (hm x h4)
    · exact Or.inr h5

theorem heapPop_mem (cmp : Order → Order → Bool) (v : List Order) (x : Order) :
    x ∈ heapPop cmp v → x ∈ v := by
  simp only [heapPop]
  split
  · intro hx; simp at hx
  · rename_i hgt
    intro hx
    have hx2 := List.mem_of_mem_take hx
    have hlen : v.length - 1 ≤ (v.set (v.length - 1) (v.getD 0 default)).length := by
      rw [List.length_set]; omega
    have := adjustHeap_mem cmp (v.length - 1) _ 0 _ x (by omega) hlen hx2
    rcases this with h1 | h2
    · rcases List.mem_or_eq_of_mem_set h1 with h3 | h4
      · exact h3
      · exact h4 ▸ getD_mem v 0 default (by omega)
    · exact h2 ▸ getD_mem v (v.length - 1) default (by omega)

theorem heapPush_mem (cmp : Order → Order → Bool) (v : List Order) (x' x : Order) :
    x ∈ heapPush cmp v x' → x ∈ v ∨ x = x' := by
  intro hx
  unfold heapPush at hx
  have := pushHeapUp_mem cmp (v.length + 1) (v ++ [x']) v.length 0 x' x (by simp) hx
  rcases this with h1 | h2
  · rcases List.mem_append.mp h1 with h3 | h4
    · exact Or.inl h3
    · exact Or.inr (by simpa using h4)
  · exact Or.inr h2

theorem heapPush_self_mem (cmp : Order → Order → Bool) (v : List Order) (x : Order) :
    x ∈ heapPush cmp v x := by
  unfold heapPush
  exact pushHeapUp_value_mem cmp (v.length + 1) (v ++ [x]) v.length 0 x (by simp)

theorem heapTop_mem (v : List Order) (h : v ≠ []) : heapTop v ∈ v := by
  unfold heapTop
  exact getD_mem v 0 default (by cases v with | nil => simp at h | cons a l => simp)

theorem crossing_iff (b : OrderBook) :
    crossing b = true ↔
      b.buy_orders ≠ [] ∧ b.sell_orders ≠ [] ∧
        (heapTop b.sell_orders).price ≤ (heapTop b.buy_orders).price := by
  simp only [crossing, Bool.and_eq_true, Bool.not_eq_true', List.isEmpty_eq_false,
    decide_eq_true_eq, ge_iff_le]
  tauto

theorem crossing_false_lt (b : OrderBook) (h : crossing b = false)
    (hb : b.buy_orders ≠ []) (hs : b.sell_orders ≠ []) :
    (heapTop b.buy_orders).price < (heapTop b.sell_orders).price := by
  by_contra hlt
  push_neg at hlt
  have : crossing b = true := (crossing_iff b).mpr ⟨hb, hs, hlt⟩
  rw [h] at this
  exact Bool.false_ne_true this

theorem matchStep_length_lt (b : OrderBook) (h : crossing b = true) :
    (matchStep b).1.buy_orders.length + (matchStep b).1.sell_orders.length <
      b.buy_orders.length + b.sell_orders.length := by
  obtain ⟨hb, hs, _⟩ := (crossing_iff b).mp h
  have hbl : 1 ≤ b.buy_orders.length := by
    cases hbo : b.buy_orders with
    | nil => exact absurd hbo hb
    | cons a l => simp [hbo]
  have hsl : 1 ≤ b.sell_orders.length := by
    cases hso : b.sell_orders with
    | nil => exact absurd hso hs
    | cons a l => simp [hso]
  simp only [matchStep]
  rcases intMin_choice (heapTop b.buy_orders).quantity (heapTop b.sell_orders).quantity with
    hmb | hms
  · rw [if_pos hmb.symm]
    have h1 : (heapPop OrderCompare b.buy_orders).length = b.buy_orders.length - 1 :=
      heapPop_length OrderCompare b.buy_orders hb
    split
    · have h2 : (heapPop OrderCompare b.sell_orders).length = b.sell_orders.length - 1 :=
        heapPop_length OrderCompare b.sell_orders hs
      omega
    · rw [List.length_set]; omega
  · rw [if_pos hms.symm]
    have h2 : (heapPop OrderCompare b.sell_orders).length = b.sell_orders.length - 1 :=
      heapPop_length OrderCompare b.sell_orders hs
    split
    · have h1 : (heapPop OrderCompare b.buy_orders).length = b.buy_orders.length - 1 :=
        heapPop_length OrderCompare b.buy_orders hb
      omega
    · rw [List.length_set]; omega

theorem matchLoop_not_crossing :
    ∀ (fuel : ℕ) (b : OrderBook) (evs : List TradeEvent),
      b.buy_orders.length + b.sell_orders.length ≤ fuel →
      crossing (matchLoop fuel b evs).1 = false := by
  intro fuel
  induction fuel with
  | zero =>
    intro b evs hle
    have hb : b.buy_orders = [] := by
      cases hbo : b.buy_orders with
      | nil => rfl
      | cons a l => rw [hbo] at hle; simp at hle
    simp [matchLoop, crossing, hb]
  | succ n ih =>
    intro b evs hle
    simp only [matchLoop]
    split
    · rename_i hc
      have hlt := matchStep_length_lt b hc
      exact ih (matchStep b).1 (evs ++ [(matchStep b).2]) (by omega)
    · rename_i hc
      simpa using hc

theorem matchLoop_stop (fuel : ℕ) (b : OrderBook) (evs : List TradeEvent)
    (h : crossing b = false) : matchLoop fuel b evs = (b, evs) := by
  cases fuel with
  | zero => rfl
  | succ n => simp [matchLoop, h]

theorem match_orders_not_crossing (b : OrderBook) :
    crossing (OrderBook.match_orders b).1 = false :=
  matchLoop_not_crossing _ b [] le_rfl

theorem add_order_not_crossing (b : OrderBook) (o : Order) :
    crossing (OrderBook.add_order b o).1 = false := by
  unfold OrderBook.add_order
  exact match_orders_not_crossing _

theorem run_orders_not_crossing (s : String) (os : List Order) :
    crossing (run_orders s os) = false := by
  unfold run_orders
  have haux : ∀ (l : List Order) (b : OrderBook), crossing b = false →
      crossing (l.foldl (fun b o => (OrderBook.add_order b o).1) b) = false := by
    intro l
    induction l with
    | nil => intro b hb; exact hb
    | cons o rest ih =>
      intro b _
      exact ih ((OrderBook.add_order b o).1) (add_order_not_crossing b o)
  exact haux os (OrderBook.init s) (by rfl)

end trading

namespace trading

/-- C2: in every iteration of the matching loop that runs while both sides
are non-empty and the top buy price is at least the top sell price, the
matched quantity equals the minimum of the two top orders' remaining
quantities, the matched price equals the midpoint of the two resting prices,
both top orders are decremented by the matched quantity, and an order is
removed from its side exactly when its remaining quantity reaches 0. -/
theorem C2_match_iteration (b : OrderBook) (fuel : ℕ) (evs : List TradeEvent)
    (h : crossing b = true) :
    ∃ (ev : TradeEvent) (b' : OrderBook),
      matchLoop (fuel + 1) b evs = matchLoop fuel b' (evs ++ [ev]) ∧
      ev.quantity = min (heapTop b.buy_orders).quantity (heapTop b.sell_orders).quantity ∧
      ev.price = ((heapTop b.buy_orders).price + (heapTop b.sell_orders).price) / 2 ∧
      b'.buy_orders = (if (heapTop b.buy_orders).quantity - ev.quantity = 0
        then heapPop OrderCompare b.buy_orders
        else b.buy_orders.set 0 { heapTop b.buy_orders with
          quantity := (heapTop b.buy_orders).quantity - ev.quantity }) ∧
      b'.sell_orders = (if (heapTop b.sell_orders).quantity - ev.quantity = 0
        then heapPop OrderCompare b.sell_orders
        else b.sell_orders.set 0 { heapTop b.sell_orders with
          quantity := (heapTop b.sell_orders).quantity - ev.quantity }) := by
  refine ⟨(matchStep b).2, (matchStep b).1, ?_, ?_, ?_, ?_, ?_⟩
  · simp [matchLoop, h]
  · simp only [matchStep]
    exact intMin_eq_min _ _
  · simp only [matchStep]
  · simp only [matchStep]
    by_cases hq : (heapTop b.buy_orders).quantity =
        intMin (heapTop b.buy_orders).quantity (heapTop b.sell_orders).quantity
    · rw [if_pos hq, if_pos (by omega)]
    · rw [if_neg hq, if_neg (by omega)]
  · simp only [matchStep]
    by_cases hq : (heapTop b.sell_orders).quantity =
        intMin (heapTop b.buy_orders).quantity (heapTop b.sell_orders).quantity
    · rw [if_pos hq, if_pos (by omega)]
    · rw [if_neg hq, if_neg (by omega)]

end trading

namespace trading

/-- C3: after any sequence of add_order calls (each followed by its matching
pass), whenever both sides of the book are non-empty the best bid price is
strictly less than the best ask price — the book is never left crossed. -/
theorem C3_no_crossed_book (s : String) (os : List Order)
    (hb : (run_orders s os).buy_orders ≠ []) (hs : (run_orders s os).sell_orders ≠ []) :
    OrderBook.get_best_bid (run_orders s os) < OrderBook.get_best_ask (run_orders s os) := by
  have h := run_orders_not_crossing s os
  have hlt := crossing_false_lt _ h hb hs
  have hb' : (run_orders s os).buy_orders.isEmpty = false := by
    rwa [List.isEmpty_eq_false]
  have hs' : (run_orders s os).sell_orders.isEmpty = false := by
    rwa [List.isEmpty_eq_false]
  simpa [OrderBook.get_best_bid, OrderBook.get_best_ask, hb', hs'] using hlt

def C3orders : List Order :=
  [{ order_id := "B", symbol := aapl, price := 90, quantity := 1, is_buy := true },
   { order_id := "S", symbol := aapl, price := 100, quantity := 1, is_buy := false }]

theorem C3_no_crossed_book_witness :
    (run_orders aapl C3orders).buy_orders ≠ [] ∧ (run_orders aapl C3orders).sell_orders ≠ [] ∧
      OrderBook.get_best_bid (run_orders aapl C3orders) <
        OrderBook.get_best_ask (run_orders aapl C3orders) :=
  ⟨by with_unfolding_all decide, by with_unfolding_all decide,
   C3_no_crossed_book aapl C3orders (by with_unfolding_all decide)
     (by with_unfolding_all decide)⟩

theorem findBook_update_book (books : List (String × OrderBook)) (sym s : String)
    (b' : OrderBook) (h : ¬ sym = s) :
    findBook (update_book books sym b') s = findBook books s := by
  induction books with
  | nil => rfl
  | cons p rest ih =>
    obtain ⟨k, b⟩ := p
    show findBook ((if k = sym then (sym, b') else (k, b)) :: update_book rest sym b') s
      = findBook ((k, b) :: rest) s
    by_cases hk : k = sym
    · rw [if_pos hk]
      show (if sym = s then some b' else findBook (update_book rest sym b') s)
        = (if k = s then some b else findBook rest s)
      rw [if_neg h, if_neg (by rw [hk]; exact h)]
      exact ih
    · rw [if_neg hk]
      show (if k = s then some b else findBook (update_book rest sym b') s)
        = (if k = s then some b else findBook rest s)
      by_cases hks : k = s
      · rw [if_pos hks, if_pos hks]
      · rw [if_neg hks, if_neg hks]
        exact ih

theorem findBook_append_none (books : List (String × OrderBook)) (sym s : String)
    (b : OrderBook) (hn : findBook books s = none) (h : ¬ sym = s) :
    findBook (books ++ [(sym, b)]) s = none := by
  induction books with
  | nil => simp [findBook, h]
  | cons p rest ih =>
    obtain ⟨k, bb⟩ := p
    simp only [findBook, List.cons_append] at hn ⊢
    by_cases hks : k = s
    · rw [if_pos hks] at hn; exact absurd hn (by simp)
    · rw [if_neg hks] at hn ⊢
      exact ih hn

theorem findBook_try_emplace_none (books : List (String × OrderBook)) (sym s : String)
    (hn : findBook books s = none) (h : ¬ sym = s) :
    findBook (try_emplace books sym) s = none := by
  unfold try_emplace
  cases hfb : findBook books sym with
  | some b => exact hn
  | none => exact findBook_append_none books sym s _ hn h

theorem run_engine_unknown (os : List Order) (s : String) (h : ∀ o ∈ os, ¬ o.symbol = s) :
    findBook (run_engine os).order_books s = none := by
  unfold run_engine
  have haux : ∀ (l : List Order) (e : ExecutionEngine), (∀ o ∈ l, ¬ o.symbol = s) →
      findBook e.order_books s = none →
      findBook ((l.foldl (fun e o => (ExecutionEngine.submit_order e o).1) e)).order_books s
        = none := by
    intro l
    induction l with
    | nil => intro e _ he; exact he
    | cons o rest ih =>
      intro e hl he
      have ho : ¬ o.symbol = s := hl o (by simp)
      refine ih ((ExecutionEngine.submit_order e o).1) (fun o' ho' => hl o' (by simp [ho'])) ?_
      simp only [ExecutionEngine.submit_order]
      rw [findBook_update_book _ _ _ _ ho]
      exact findBook_try_emplace_none e.order_books o.symbol s he ho
  exact haux os ExecutionEngine.init h (by rfl)

/-- C9: for every symbol for which no order has ever been submitted, the
engine read queries position, average_cost, unrealized_pnl and realized_pnl
return the neutral zero value rather than raising an error. -/
theorem C9_unknown_symbol (os : List Order) (s : String) (h : ∀ o ∈ os, ¬ o.symbol = s) :
    ExecutionEngine.get_position (run_engine os) s = 0 ∧
    ExecutionEngine.get_average_price (run_engine os) s = 0 ∧
    ExecutionEngine.get_unrealized_pnl (run_engine os) s = 0 ∧
    ExecutionEngine.get_realized_pnl (run_engine os) s = 0 := by
  have hf := run_engine_unknown os s h
  refine ⟨?_, ?_, ?_, ?_⟩ <;>
    simp [ExecutionEngine.get_position, ExecutionEngine.get_average_price,
      ExecutionEngine.get_unrealized_pnl, ExecutionEngine.get_realized_pnl, hf]

def C9orders : List Order :=
  [{ order_id := "", symbol := aapl, price := 100, quantity := 5, is_buy := true }]

theorem C9_unknown_symbol_witness :
    (∀ o ∈ C9orders, ¬ o.symbol = msft) ∧
      (ExecutionEngine.get_position (run_engine C9orders) msft = 0 ∧
       ExecutionEngine.get_average_price (run_engine C9orders) msft = 0 ∧
       ExecutionEngine.get_unrealized_pnl (run_engine C9orders) msft = 0 ∧
       ExecutionEngine.get_realized_pnl (run_engine C9orders) msft = 0) :=
  ⟨by with_unfolding_all decide, C9_unknown_symbol C9orders msft (by with_unfolding_all decide)⟩

end trading

namespace trading

/-- All resting orders have positive remaining quantity. -/
def posQty (b : OrderBook) : Prop :=
  (∀ o ∈ b.buy_orders, 0 < o.quantity) ∧ (∀ o ∈ b.sell_orders, 0 < o.quantity)

theorem intMin_pos (a b : ℤ) (ha : 0 < a) (hb : 0 < b) : 0 < intMin a b := by
  unfold intMin; split <;> omega

theorem intMin_le_left (a b : ℤ) : intMin a b ≤ a := by
  unfold intMin; split <;> omega

theorem intMin_le_right (a b : ℤ) : intMin a b ≤ b := by
  unfold intMin; split <;> omega

theorem matchStep_invariant (b : OrderBook) (h : crossing b = true) (hq : posQty b) :
    posQty (matchStep b).1 ∧ 0 < (matchStep b).2.quantity ∧
      (matchStep b).1.position_ = b.position_ + (matchStep b).2.quantity := by
  obtain ⟨hb, hs, _⟩ := (crossing_iff b).mp h
  have hbq : 0 < (heapTop b.buy_orders).quantity := hq.1 _ (heapTop_mem _ hb)
  have hsq : 0 < (heapTop b.sell_orders).quantity := hq.2 _ (heapTop_mem _ hs)
  have hm : 0 < intMin (heapTop b.buy_orders).quantity (heapTop b.sell_orders).quantity :=
    intMin_pos _ _ hbq hsq
  refine ⟨⟨?_, ?_⟩, ?_, ?_⟩
  · intro x hx
    simp only [matchStep] at hx
    split at hx
    · exact hq.1 x (heapPop_mem _ _ _ hx)
    · rename_i hne
      rcases List.mem_or_eq_of_mem_set hx with h1 | h2
      · exact hq.1 x h1
      · subst h2
        have := intMin_le_left (heapTop b.buy_orders).quantity (heapTop b.sell_orders).quantity
        simp only
        omega
  · intro x hx
    simp only [matchStep] at hx
    split at hx
    · exact hq.2 x (heapPop_mem _ _ _ hx)
    · rename_i hne
      rcases List.mem_or_eq_of_mem_set hx with h1 | h2
      · exact hq.2 x h1
      · subst h2
        have := intMin_le_right (heapTop b.buy_orders).quantity (heapTop b.sell_orders).quantity
        simp only
        omega
  · exact hm
  · simp only [matchStep]

theorem matchLoop_invariant :
    ∀ (fuel : ℕ) (b : OrderBook) (evs : List TradeEvent), posQty b →
      posQty (matchLoop fuel b evs).1 ∧
      ∃ new, (matchLoop fuel b evs).2 = evs ++ new ∧ (∀ t ∈ new, 0 < t.quantity) ∧
        (matchLoop fuel b evs).1.position_ = b.position_ + (new.map TradeEvent.quantity).sum := by
  intro fuel
  induction fuel with
  | zero =>
    intro b evs hq
    exact ⟨hq, [], by simp [matchLoop], by simp, by simp [matchLoop]⟩
  | succ n ih =>
    intro b evs hq
    simp only [matchLoop]
    split
    · rename_i hc
      obtain ⟨hq', hev, hpos⟩ := matchStep_invariant b hc hq
      obtain ⟨hq2, new, hnew, hposnew, hpos2⟩ := ih (matchStep b).1 (evs ++ [(matchStep b).2]) hq'
      refine ⟨hq2, (matchStep b).2 :: new, ?_, ?_, ?_⟩
      · rw [hnew]; simp
      · intro t ht
        rcases List.mem_cons.mp ht with h1 | h2
        · exact h1 ▸ hev
        · exact hposnew t h2
      · rw [hpos2, hpos]
        simp only [List.map_cons, List.sum_cons]
        ring
    · exact ⟨hq, [], by simp, by simp, by simp⟩

theorem add_order_invariant (b : OrderBook) (o : Order) (hq : posQty b)
    (ho : 0 < o.quantity) :
    posQty (OrderBook.add_order b o).1 ∧
      (∀ t ∈ (OrderBook.add_order b o).2, 0 < t.quantity) ∧
      (OrderBook.add_order b o).1.position_
        = b.position_ + (((OrderBook.add_order b o).2).map TradeEvent.quantity).sum := by
  unfold OrderBook.add_order OrderBook.match_orders
  have hq' : posQty (if o.is_buy then
      { b with buy_orders := heapPush OrderCompare b.buy_orders o }
    else { b with sell_orders := heapPush OrderCompare b.sell_orders o }) := by
    split
    · refine ⟨fun x hx => ?_, hq.2⟩
      rcases heapPush_mem OrderCompare b.buy_orders o x hx with h1 | h2
      · exact hq.1 x h1
      · exact h2 ▸ ho
    · refine ⟨hq.1, fun x hx => ?_⟩
      rcases heapPush_mem OrderCompare b.sell_orders o x hx with h1 | h2
      · exact hq.2 x h1
      · exact h2 ▸ ho
  obtain ⟨hq2, new, hnew, hposnew, hpos⟩ := matchLoop_invariant _ _ [] hq'
  refine ⟨hq2, ?_, ?_⟩
  · intro t ht
    rw [hnew] at ht
    exact hposnew t (by simpa using ht)
  · rw [hpos, hnew]
    simp only [List.nil_append]
    split <;> simp

theorem run_orders_ev_invariant :
    ∀ (os : List Order) (b : OrderBook) (evs : List TradeEvent), posQty b →
      (∀ o ∈ os, 0 < o.quantity) →
      (posQty (os.foldl (fun p o =>
          let r := OrderBook.add_order p.1 o
          (r.1, p.2 ++ r.2)) (b, evs)).1 ∧
       ∃ new, (os.foldl (fun p o =>
          let r := OrderBook.add_order p.1 o
          (r.1, p.2 ++ r.2)) (b, evs)).2 = evs ++ new ∧
         (∀ t ∈ new, 0 < t.quantity) ∧
         (os.foldl (fun p o =>
          let r := OrderBook.add_order p.1 o
          (r.1, p.2 ++ r.2)) (b, evs)).1.position_
           = b.position_ + (new.map TradeEvent.quantity).sum) := by
  intro os
  induction os with
  | nil =>
    intro b evs hq _
    exact ⟨hq, [], by simp, by simp, by simp⟩
  | cons o rest ih =>
    intro b evs hq hos
    simp only [List.foldl_cons]
    obtain ⟨hq', hpose, hpos⟩ := add_order_invariant b o hq (hos o (by simp))
    obtain ⟨hq2, new, hnew, hposnew, hpos2⟩ :=
      ih (OrderBook.add_order b o).1 (evs ++ (OrderBook.add_order b o).2) hq'
        (fun o' ho' => hos o' (by simp [ho']))
    refine ⟨hq2, (OrderBook.add_order b o).2 ++ new, ?_, ?_, ?_⟩
    · simpa [List.append_assoc] using hnew
    · intro t ht
      rcases List.mem_append.mp ht with h1 | h2
      · exact hpose t h1
      · exact hposnew t h2
    · rw [hpos2, hpos]
      simp only [List.map_append, List.sum_append]
      ring

end trading

namespace trading

theorem sum_nonneg_of_pos (l : List ℤ) (h : ∀ x ∈ l, 0 < x) : 0 ≤ l.sum := by
  induction l with
  | nil => simp
  | cons a t ih =>
    simp only [List.sum_cons]
    have h1 := h a (by simp)
    have h2 := ih (fun x hx => h x (by simp [hx]))
    omega

/-- C10: across every sequence of add_order calls with well-formed (positive)
quantities, the reported position equals the cumulative matched volume (the
sum of all matched quantities, added regardless of which side was the
aggressor), is always non-negative, and is non-decreasing across calls —
sell fills never decrease it. -/
theorem C10_position_is_cumulative_volume (s : String) (os : List Order)
    (h : ∀ o ∈ os, 0 < o.quantity) :
    OrderBook.get_position (run_orders_ev s os).1
        = (((run_orders_ev s os).2).map TradeEvent.quantity).sum ∧
    0 ≤ OrderBook.get_position (run_orders_ev s os).1 ∧
    (∀ os1 os2, os = os1 ++ os2 →
      OrderBook.get_position (run_orders_ev s os1).1
        ≤ OrderBook.get_position (run_orders_ev s os).1) := by
  have hinit : posQty (OrderBook.init s) := ⟨by simp [OrderBook.init], by simp [OrderBook.init]⟩
  obtain ⟨hq, new, hnew, hposnew, hpos⟩ :=
    run_orders_ev_invariant os (OrderBook.init s) [] hinit h
  have hsumnn : 0 ≤ (new.map TradeEvent.quantity).sum := by
    refine sum_nonneg_of_pos _ (fun x hx => ?_)
    obtain ⟨t, ht, rfl⟩ := List.mem_map.mp hx
    exact hposnew t ht
  refine ⟨?_, ?_, ?_⟩
  · unfold OrderBook.get_position run_orders_ev
    rw [hpos, hnew]
    simp [OrderBook.init]
  · unfold OrderBook.get_position run_orders_ev
    rw [hpos]
    simp only [OrderBook.init]
    omega
  · intro os1 os2 heq
    subst heq
    obtain ⟨hq1, new1, hnew1, hposnew1, hpos1⟩ :=
      run_orders_ev_invariant os1 (OrderBook.init s) [] hinit
        (fun o ho => h o (List.mem_append.mpr (Or.inl ho)))
    unfold OrderBook.get_position run_orders_ev
    rw [List.foldl_append]
    obtain ⟨hq2, new2, hnew2, hposnew2, hpos2⟩ :=
      run_orders_ev_invariant os2
        ((List.foldl (fun p o =>
          let r := OrderBook.add_order p.1 o
          (r.1, p.2 ++ r.2)) (OrderBook.init s, []) os1)).1
        ((List.foldl (fun p o =>
          let r := OrderBook.add_order p.1 o
          (r.1, p.2 ++ r.2)) (OrderBook.init s, []) os1)).2
        hq1 (fun o ho => h o (List.mem_append.mpr (Or.inr ho)))
    have hsum2 : 0 ≤ (new2.map TradeEvent.quantity).sum := by
      refine sum_nonneg_of_pos _ (fun x hx => ?_)
      obtain ⟨t, ht, rfl⟩ := List.mem_map.mp hx
      exact hposnew2 t ht
    rw [hpos2]
    omega

def C10orders : List Order :=
  [{ order_id := "B", symbol := aapl, price := 105, quantity := 2, is_buy := true },
   { order_id := "S1", symbol := aapl, price := 100, quantity := 1, is_buy := false },
   { order_id := "S2", symbol := aapl, price := 100, quantity := 1, is_buy := false }]

theorem C10_position_is_cumulative_volume_witness :
    (∀ o ∈ C10orders, 0 < o.quantity) ∧
      (OrderBook.get_position (run_orders_ev aapl C10orders).1
          = (((run_orders_ev aapl C10orders).2).map TradeEvent.quantity).sum ∧
       0 ≤ OrderBook.get_position (run_orders_ev aapl C10orders).1 ∧
       (∀ os1 os2, C10orders = os1 ++ os2 →
         OrderBook.get_position (run_orders_ev aapl os1).1
           ≤ OrderBook.get_position (run_orders_ev aapl C10orders).1)) :=
  ⟨by with_unfolding_all decide,
   C10_position_is_cumulative_volume aapl C10orders (by with_unfolding_all decide)⟩

end trading

namespace trading

/-- The opening-fill scenario: a resting buy of 10 at 21, then a sell of 5
at 20 arrives and one match of quantity 5 executes at midpoint 20.5.  All
values are dyadic, small, and exactly representable in double. -/
def oBuy21 : Order :=
  { order_id := "B1", symbol := aapl, price := 21, quantity := 10, is_buy := true }

/-- The crossing sell of the opening-fill scenario. -/
def oSell20 : Order :=
  { order_id := "S1", symbol := aapl, price := 20, quantity := 5, is_buy := false }

/-- Book after the resting buy only (no match yet). -/
def book1 : OrderBook := (OrderBook.add_order (OrderBook.init aapl) oBuy21).1

/-- Book after the sell crossed: the single opening fill has executed. -/
def book2 : OrderBook := (OrderBook.add_order book1 oSell20).1

/-- The match events of the crossing sell. -/
def book2events : List TradeEvent := (OrderBook.add_order book1 oSell20).2

/-- C1: the claim says the accounting update uses pre-trade state.  The code
does not: on the opening fill of the concrete scenario (buy 10 at 21, then
sell 5 at 20, one match of 5 at midpoint 20.5 executed against pre-trade
position 0, average cost 0, realized P&L 0) the code stores average cost
41/4 = 10.25 — computed from the already-updated position — instead of the
claim's pre-trade value 41/2 = 20.5, and it changes realized P&L (to
205/4 = 51.25, using the post-update average) although the claim says a
magnitude-increasing fill leaves realized P&L unchanged. -/
theorem C1_accounting_post_trade :
    book2events = [{ symbol := aapl, price := 41/2, quantity := 5,
                     buy_order_id := "B1", sell_order_id := "S1" }] ∧
    book1.position_ = 0 ∧ book1.average_price_ = 0 ∧ book1.realized_pnl_ = 0 ∧
    book2.average_price_ = 41/4 ∧
    spec_avg_increase book1.position_ book1.average_price_ (41/2) 5 = 41/2 ∧
    ¬ book2.average_price_
        = spec_avg_increase book1.position_ book1.average_price_ (41/2) 5 ∧
    book2.realized_pnl_ = 205/4 ∧
    ¬ book2.realized_pnl_ = book1.realized_pnl_ := by
  refine ⟨?_, ?_, ?_, ?_, ?_, ?_, ?_, ?_, ?_⟩ <;> with_unfolding_all decide

/-- C4: the claim says realized_pnl changes only on a fill that reduces the
magnitude of an existing position.  In the code the single opening fill of
the concrete scenario moves the position from 0 to 5 (a pure magnitude
increase) yet realized_pnl changes from 0 to a non-zero value. -/
theorem C4_realized_pnl_changes_on_opening_fill :
    book1.position_ = 0 ∧ book2.position_ = 5 ∧
    book1.realized_pnl_ = 0 ∧ ¬ book2.realized_pnl_ = 0 := by
  refine ⟨?_, ?_, ?_, ?_⟩ <;> with_unfolding_all decide

/-- Engine scenario for the trade-publication claim: one registered trade
subscriber for AAPL, then two crossing orders producing one match. -/
def engineAfterCross : ExecutionEngine :=
  (ExecutionEngine.submit_order
    (ExecutionEngine.submit_order
      (ExecutionEngine.subscribe_trades ExecutionEngine.init aapl 0)
      { order_id := "", symbol := aapl, price := 105, quantity := 100, is_buy := true }).1
    { order_id := "", symbol := aapl, price := 100, quantity := 50, is_buy := false }).1

/-- C5: the claim says every match event emits exactly one Trade delivered to
the registered trade subscribers.  The code never publishes: submit_order
leaves trades_delivered untouched for every engine and order, and in the
concrete scenario a subscriber is registered and one match executes while
the delivered-trades list stays empty. -/
theorem C5_trades_never_published :
    (∀ (e : ExecutionEngine) (o : Order),
       ((ExecutionEngine.submit_order e o).1).trades_delivered = e.trades_delivered) ∧
    engineAfterCross.all_matches.length = 1 ∧
    engineAfterCross.trade_callbacks = [(aapl, [0])] ∧
    engineAfterCross.trades_delivered = [] :=
  ⟨fun _ _ => rfl, by with_unfolding_all decide, by with_unfolding_all decide,
   by with_unfolding_all decide⟩

/-- Price-time-priority scenario: sells S1 and S2 at 100 (submitted in that
order), then S3 at 99, then two crossing one-lot buys. -/
def priorityOrders : List Order :=
  [{ order_id := "S1", symbol := aapl, price := 100, quantity := 1, is_buy := false },
   { order_id := "S2", symbol := aapl, price := 100, quantity := 1, is_buy := false },
   { order_id := "S3", symbol := aapl, price := 99, quantity := 1, is_buy := false },
   { order_id := "B1", symbol := aapl, price := 100, quantity := 1, is_buy := true },
   { order_id := "B2", symbol := aapl, price := 100, quantity := 1, is_buy := true }]

/-- C6: the claim says equal-priced resting orders are served in ascending
submission order.  Under the price-only heap comparator of the code this
fails: sells S1 and S2 both rest at 100 with S1 submitted first, yet after
two crossing one-lot buys the fill list shows S2 was filled while S1 still
rests with its full quantity. -/
theorem C6_price_time_priority_violated :
    ((run_orders_ev aapl priorityOrders).1.sell_orders.map Order.order_id = ["S1"]) ∧
    ((run_orders_ev aapl priorityOrders).1.sell_orders.map Order.quantity = [1]) ∧
    ((run_orders_ev aapl priorityOrders).2.map TradeEvent.sell_order_id = ["S3", "S2"]) := by
  with_unfolding_all decide

/-- C7 counterexample: the claim says unrealized P&L is exactly 0 whenever a
side of the book is empty.  In the concrete state the sell side is empty and
the position is 5, yet get_unrealized_pnl returns 5/4, not 0 (the code uses
0.0 as the empty side's price instead of reporting 0). -/
theorem C7_unrealized_pnl_counterexample :
    book2.sell_orders = [] ∧ book2.position_ = 5 ∧
    OrderBook.get_unrealized_pnl book2 = 5/4 ∧
    ¬ OrderBook.get_unrealized_pnl book2 = 0 := by
  refine ⟨?_, ?_, ?_, ?_⟩ <;> with_unfolding_all decide

/-- C7 as amended: unrealized P&L always equals
position * (mid − average_cost) with mid = (best_bid + best_ask) / 2 where
an empty side contributes price 0; with both sides non-empty this is the
claimed two-sided midpoint formula, but with one side empty the result is
position * (price/2 − average_cost), not 0. -/
theorem C7_unrealized_pnl_formula (b : OrderBook) :
    OrderBook.get_unrealized_pnl b =
      (b.position_ : ℚ) *
        (((if b.buy_orders = [] then 0 else (heapTop b.buy_orders).price) +
          (if b.sell_orders = [] then 0 else (heapTop b.sell_orders).price)) / 2
          - b.average_price_) := by
  unfold OrderBook.get_unrealized_pnl OrderBook.get_best_bid OrderBook.get_best_ask
  simp only [List.isEmpty_iff]

def badOrder : Order :=
  { order_id := "X", symbol := aapl, price := -1, quantity := 0, is_buy := true }

/-- C8 counterexample: an order with non-positive price and quantity is not
rejected; it enters the book and rests there. -/
theorem C8_counterexample_malformed_order_enters_book :
    ((OrderBook.add_order (OrderBook.init aapl) badOrder).1).buy_orders = [badOrder] := by
  with_unfolding_all decide

/-- C8 as amended: submit_order/add_order perform no validation — every
order, malformed or not, is entered into the resting set of its side before
matching (shown here for a buy against an empty opposite side, where
matching cannot consume it), and submit_order never fails: it always
returns the generated id. -/
theorem C8_no_validation (b : OrderBook) (o : Order) (e : ExecutionEngine)
    (h1 : o.is_buy = true) (h2 : b.sell_orders = []) :
    o ∈ (OrderBook.add_order b o).1.buy_orders ∧
    (ExecutionEngine.submit_order e o).2 = generate_order_id e.next_id := by
  constructor
  · unfold OrderBook.add_order
    rw [if_pos h1]
    have hcross : crossing { b with buy_orders := heapPush OrderCompare b.buy_orders o }
        = false := by
      simp [crossing, h2]
    unfold OrderBook.match_orders
    rw [matchLoop_stop _ _ _ hcross]
    exact heapPush_self_mem OrderCompare b.buy_orders o
  · rfl

theorem C8_no_validation_witness :
    (badOrder.is_buy = true ∧ (OrderBook.init aapl).sell_orders = []) ∧
      (badOrder ∈ (OrderBook.add_order (OrderBook.init aapl) badOrder).1.buy_orders ∧
       (ExecutionEngine.submit_order ExecutionEngine.init badOrder).2
         = generate_order_id ExecutionEngine.init.next_id) :=
  ⟨⟨by with_unfolding_all decide, by with_unfolding_all decide⟩,
   C8_no_validation (OrderBook.init aapl) badOrder ExecutionEngine.init
     (by with_unfolding_all decide) (by with_unfolding_all decide)⟩

/-- A concrete crossing book used to instantiate the matching-iteration
theorem: one resting buy of 10 at 105 against one resting sell of 4 at 100. -/
def crossedBook : OrderBook :=
  { symbol := aapl,
    buy_orders := [{ order_id := "B", symbol := aapl, price := 105, quantity := 10,
                     is_buy := true }],
    sell_orders := [{ order_id := "S", symbol := aapl, price := 100, quantity := 4,
                      is_buy := false }],
    position_ := 0, average_price_ := 0, realized_pnl_ := 0 }

theorem C2_match_iteration_witness :
    crossing crossedBook = true ∧
    (∃ (ev : TradeEvent) (b' : OrderBook),
      matchLoop (0 + 1) crossedBook [] = matchLoop 0 b' ([] ++ [ev]) ∧
      ev.quantity = min (heapTop crossedBook.buy_orders).quantity
        (heapTop crossedBook.sell_orders).quantity ∧
      ev.price = ((heapTop crossedBook.buy_orders).price
        + (heapTop crossedBook.sell_orders).price) / 2 ∧
      b'.buy_orders = (if (heapTop crossedBook.buy_orders).quantity - ev.quantity = 0
        then heapPop OrderCompare crossedBook.buy_orders
        else crossedBook.buy_orders.set 0 { heapTop crossedBook.buy_orders with
          quantity := (heapTop crossedBook.buy_orders).quantity - ev.quantity }) ∧
      b'.sell_orders = (if (heapTop crossedBook.sell_orders).quantity - ev.quantity = 0
        then heapPop OrderCompare crossedBook.sell_orders
        else crossedBook.sell_orders.set 0 { heapTop crossedBook.sell_orders with
          quantity := (heapTop crossedBook.sell_orders).quantity - ev.quantity })) :=
  ⟨by with_unfolding_all decide,
   C2_match_iteration crossedBook 0 [] (by with_unfolding_all decide)⟩

end trading
